import Mathlib

/-!
# go-ethereum-kvrocks: `ethdb/redisdb/redis.go`

A shallow embedding of the Redis-backed key/value `Database` of
`ethdb/redisdb/redis.go`, and the properties of its operations.

* Go values are modelled by what a Go program can observe of them: a `string`
  is its byte sequence, a `[]byte` is either `nil` or a (possibly empty)
  byte sequence, an `error` is `nil` (`none`) or an error value.
* The Redis client is the interface `simpleClient` of the source.  Every call
  takes the backend state and returns the command result together with the
  next backend state, so that the number and order of the backend calls an
  operation makes are visible in its result.
* `memClient` is an in-memory client: a map from key string to value that
  `Set` overwrites, `Del` removes from and `Get` reads.
-/

namespace redisdb

/-! ## Go values -/

/-- A byte. -/
abbrev Byte := Fin 256

/-- A Go `string`: an immutable sequence of bytes (not necessarily UTF-8). -/
abbrev GoString := List Byte

/-- A Go `[]byte`: the `nil` slice, or a slice holding a sequence of bytes. -/
inductive GoBytes where
  | nil : GoBytes
  | mk (data : List Byte) : GoBytes
  deriving DecidableEq, Repr

/-- The bytes held by a slice; the `nil` slice holds none. -/
def GoBytes.bytes : GoBytes → List Byte
  | .nil => []
  | .mk data => data

/-- Go `len(b)`. -/
def GoBytes.len (b : GoBytes) : Nat := b.bytes.length

/-- Go `b == nil`. -/
def GoBytes.isNil : GoBytes → Bool
  | .nil => true
  | .mk _ => false

/-- Go `string(b)` for `b []byte`: the bytes, unchanged. -/
def GoBytes.toGoString (b : GoBytes) : GoString := b.bytes

/-- Go `[]byte(s)` for `s string`: a fresh, non-nil slice holding the bytes
of `s`. -/
def GoString.toGoBytes (s : GoString) : GoBytes := GoBytes.mk s

/-- A Go `error` value other than `nil`.  `redisNil` is `redis.Nil`, the
marker the client reports for a key that does not exist. -/
inductive Err where
  | redisNil : Err
  | failure (msg : String) : Err
  | partialBatchFailure (indices : List Nat) : Err
  | scanIncomplete : Err
  deriving DecidableEq, Repr

/-- A Go `error`: `none` is `nil`. -/
abbrev GoError := Option Err

/-! ## The client interface -/

/-- The result of `*redis.IntCmd`: what `Result()` returns. -/
structure IntCmd where
  val : Int
  err : GoError
  deriving DecidableEq, Repr

/-- The result of `*redis.StringCmd`: what `Result()` returns. -/
structure StringCmd where
  val : GoString
  err : GoError
  deriving DecidableEq, Repr

/-- The result of `*redis.StatusCmd`. -/
structure StatusCmd where
  val : GoString
  err : GoError
  deriving DecidableEq, Repr

/-- The result of `*redis.MapStringStringCmd`; `str` is what `String()`
returns. -/
structure MapStringStringCmd where
  val : List (GoString × GoString)
  err : GoError
  str : GoString
  deriving DecidableEq, Repr

/-- The result of `*redis.SliceCmd` (`MGet`): one entry per requested key,
`none` for a key that does not exist. -/
structure SliceCmd where
  val : List (Option GoString)
  err : GoError
  deriving DecidableEq, Repr

/-- The result of `*redis.ScanCmd`: a page of keys and the next cursor. -/
structure ScanCmd where
  keys : List GoString
  cursor : Nat
  err : GoError
  deriving DecidableEq, Repr

/-- One command queued on a pipeline. -/
inductive PipeCmd where
  | set (key : GoString) (value : GoBytes) (expiration : Int) : PipeCmd
  | del (keys : List GoString) : PipeCmd
  deriving DecidableEq, Repr

/-- The interface `simpleClient` of the source, over a backend state `σ`:
each method maps its arguments and the backend state to the command result
and the next backend state.  `Pipeline` stands for queueing the given
commands on `Pipeline()` and executing them in one request; it reports one
error per command. -/
structure simpleClient (σ : Type) where
  Exists : List GoString → σ → IntCmd × σ
  Keys : GoString → σ → List GoString × GoError × σ
  Get : GoString → σ → StringCmd × σ
  MGet : List GoString → σ → SliceCmd × σ
  MSet : List (GoString × GoBytes) → σ → StatusCmd × σ
  Del : List GoString → σ → IntCmd × σ
  Set : GoString → GoBytes → Int → σ → StatusCmd × σ
  ConfigGet : GoString → σ → MapStringStringCmd × σ
  Scan : Nat → GoString → Int → σ → ScanCmd × σ
  Pipeline : List PipeCmd → σ → List GoError × σ
  Close : σ → GoError × σ

/-- The struct `Database` (its logger is not read by any operation). -/
structure Database (σ : Type) where
  client : simpleClient σ

variable {σ : Type}

/-! ## The operations of `redis.go` -/

/-- Go `func (db *Database) key(key []byte) string`. -/
def Database.key (_db : Database σ) (key : GoBytes) : GoString :=
  key.toGoString

/-- Go `func (db *Database) Has(key []byte) (bool, error)`. -/
def Database.Has (db : Database σ) (key : GoBytes) (s : σ) : (Bool × GoError) × σ :=
  let r := db.client.Exists [db.key key] s
  if r.1.err ≠ none then
    ((false, r.1.err), r.2)
  else
    ((decide (r.1.val > 0), none), r.2)

/-- Go `func (db *Database) Get(key []byte) ([]byte, error)`. -/
def Database.Get (db : Database σ) (key : GoBytes) (s : σ) : (GoBytes × GoError) × σ :=
  let r := db.client.Get (db.key key) s
  if r.1.err ≠ none then
    if r.1.err = some Err.redisNil then
      ((GoBytes.nil, none), r.2)
    else
      ((GoBytes.nil, r.1.err), r.2)
  else
    ((GoString.toGoBytes r.1.val, none), r.2)

/-- Go `func (db *Database) Put(key []byte, value []byte) error`. -/
def Database.Put (db : Database σ) (key : GoBytes) (value : GoBytes) (s : σ) : GoError × σ :=
  let r := db.client.Set (db.key key) value 0 s
  (r.1.err, r.2)

/-- Go `func (db *Database) Delete(key []byte) error`. -/
def Database.Delete (db : Database σ) (key : GoBytes) (s : σ) : GoError × σ :=
  let r := db.client.Del [db.key key] s
  (r.1.err, r.2)

/-- Go `func (db *Database) Close() error`. -/
def Database.Close (db : Database σ) (s : σ) : GoError × σ :=
  db.client.Close s

/-- Go `func (db *Database) Stat(property string) (string, error)`. -/
def Database.Stat (db : Database σ) (property : GoString) (s : σ) : (GoString × GoError) × σ :=
  let config := db.client.ConfigGet property s
  if config.1.err ≠ none then
    (([], config.1.err), config.2)
  else
    ((config.1.str, none), config.2)

/-- Go `func (db *Database) Compact(start []byte, limit []byte) error`. -/
def Database.Compact (_db : Database σ) (_start : GoBytes) (_limit : GoBytes) (s : σ) :
    GoError × σ :=
  (none, s)

/-! ## An in-memory client -/

/-- The state of the in-memory backend: a map from key string to value, kept
as an association list in which the first entry of a key is the live one. -/
abbrev Store := List (GoString × GoString)

/-- The value stored under `k`, if any. -/
def Store.get : Store → GoString → Option GoString
  | [], _ => none
  | (k', v) :: rest, k => if k' = k then some v else Store.get rest k

/-- The store without `k`. -/
def Store.del (s : Store) (k : GoString) : Store :=
  s.filter (fun p => decide (p.1 ≠ k))

/-- The store with `k` bound to `v`, any earlier binding overwritten. -/
def Store.set (s : Store) (k : GoString) (v : GoString) : Store :=
  (k, v) :: Store.del s k

/-- The keys of the store in storage order (a shadowed entry repeats its key). -/
def Store.keys (s : Store) : List GoString := s.map Prod.fst

/-- The effect of one pipelined command on the store. -/
def Store.apply (s : Store) : PipeCmd → Store
  | .set key value _ => Store.set s key value.bytes
  | .del keys => keys.foldl Store.del s

/-- The page size a `SCAN` uses for the hint `count`: Redis takes 10 when
none is given. -/
def pageSize (count : Int) : Nat := if count ≤ 0 then 10 else count.toNat

/-- An in-memory `simpleClient`.  With `fault = some e` the backend is
unreachable: every call fails with `e` and changes nothing.  With
`fault = none` every call succeeds: `Set` overwrites, `Del` removes, `Get`
reads (reporting `redis.Nil` for a missing key), `Exists` counts the given
keys that are stored, `MGet` reads several keys, `Scan` walks the store in
pages of `pageSize count` entries and returns the keys of the page that
start with `pattern`, the next cursor being 0 after the last page, and
`Pipeline` runs its commands in order.  A `pattern` is represented by the
bytes every matching key starts with. -/
def memClient (fault : GoError) : simpleClient Store where
  Exists keys s :=
    match fault with
    | some e => (⟨0, some e⟩, s)
    | none => (⟨((keys.filter (fun k => (Store.get s k).isSome)).length : Nat), none⟩, s)
  Keys pattern s :=
    match fault with
    | some e => ([], some e, s)
    | none => ((Store.keys s).filter (fun k => pattern.isPrefixOf k), none, s)
  Get key s :=
    match fault with
    | some e => (⟨[], some e⟩, s)
    | none =>
      match Store.get s key with
      | some v => (⟨v, none⟩, s)
      | none => (⟨[], some Err.redisNil⟩, s)
  MGet keys s :=
    match fault with
    | some e => (⟨[], some e⟩, s)
    | none => (⟨keys.map (Store.get s), none⟩, s)
  MSet pairs s :=
    match fault with
    | some e => (⟨[], some e⟩, s)
    | none => (⟨[], none⟩, pairs.foldl (fun acc p => Store.set acc p.1 p.2.bytes) s)
  Del keys s :=
    match fault with
    | some e => (⟨0, some e⟩, s)
    | none =>
      (⟨((keys.filter (fun k => (Store.get s k).isSome)).length : Nat), none⟩,
        keys.foldl Store.del s)
  Set key value _expiration s :=
    match fault with
    | some e => (⟨[], some e⟩, s)
    | none => (⟨[], none⟩, Store.set s key value.bytes)
  ConfigGet _parameter s :=
    match fault with
    | some e => (⟨[], some e, []⟩, s)
    | none => (⟨[], none, []⟩, s)
  Scan cursor pattern count s :=
    match fault with
    | some e => (⟨[], 0, some e⟩, s)
    | none =>
      (⟨(((s.drop cursor).take (pageSize count)).map Prod.fst).filter
          (fun k => pattern.isPrefixOf k),
        if cursor + pageSize count < s.length then cursor + pageSize count else 0,
        none⟩, s)
  Pipeline cmds s :=
    match fault with
    | some e => (cmds.map (fun _ => some e), s)
    | none => (cmds.map (fun _ => none), cmds.foldl Store.apply s)
  Close s := (none, s)

/-- The database over the in-memory client. -/
def memDB (fault : GoError) : Database Store := ⟨memClient fault⟩

/-- A client that runs every call on `c` and counts the calls made. -/
def counted (c : simpleClient σ) : simpleClient (σ × Nat) where
  Exists keys s := ((c.Exists keys s.1).1, (c.Exists keys s.1).2, s.2 + 1)
  Keys pattern s :=
    ((c.Keys pattern s.1).1, (c.Keys pattern s.1).2.1, (c.Keys pattern s.1).2.2, s.2 + 1)
  Get key s := ((c.Get key s.1).1, (c.Get key s.1).2, s.2 + 1)
  MGet keys s := ((c.MGet keys s.1).1, (c.MGet keys s.1).2, s.2 + 1)
  MSet pairs s := ((c.MSet pairs s.1).1, (c.MSet pairs s.1).2, s.2 + 1)
  Del keys s := ((c.Del keys s.1).1, (c.Del keys s.1).2, s.2 + 1)
  Set key value expiration s :=
    ((c.Set key value expiration s.1).1, (c.Set key value expiration s.1).2, s.2 + 1)
  ConfigGet parameter s := ((c.ConfigGet parameter s.1).1, (c.ConfigGet parameter s.1).2, s.2 + 1)
  Scan cursor pattern count s :=
    ((c.Scan cursor pattern count s.1).1, (c.Scan cursor pattern count s.1).2, s.2 + 1)
  Pipeline cmds s := ((c.Pipeline cmds s.1).1, (c.Pipeline cmds s.1).2, s.2 + 1)
  Close s := ((c.Close s.1).1, (c.Close s.1).2, s.2 + 1)

/-! ## Batch buffer

`batch.go`, `iterator.go` and `snapshot.go` are not among the sources; the
constructors `newBatch`, `newIterator` and `newSnapshot` that `redis.go`
calls are modelled from the specification (its sections 3 and 4). -/

/-- Modelled from the spec: the kind of a `PendingOp` (section 3); the
batch of `batch.go` is missing from the sources. -/
inductive OpKind where
  | Put : OpKind
  | Delete : OpKind
  deriving DecidableEq, Repr

/-- Modelled from the spec: `PendingOp` of section 3, `{kind, key, value
(empty for Delete), sequence index}`; missing from the sources. -/
structure PendingOp where
  kind : OpKind
  key : GoBytes
  value : GoBytes
  seq : Nat
  deriving DecidableEq, Repr

/-- Modelled from the spec: `Batch` of section 3, an ordered sequence of
`PendingOp` plus a running byte-size counter; missing from the sources. -/
structure Batch (σ : Type) where
  db : Database σ
  ops : List PendingOp
  size : Nat

/-- Modelled from the spec: the missing constructor `newBatch(db, size)`; a
batch is created empty (section 3), `size` being a capacity hint. -/
def newBatch (db : Database σ) (_size : Int) : Batch σ :=
  ⟨db, [], 0⟩

/-- Modelled from the spec: the missing `Batch.Put` (section 4.1): appends a
Put `PendingOp` and adds the key and value lengths to the size counter. -/
def Batch.Put (b : Batch σ) (key value : GoBytes) : Batch σ :=
  { b with
    ops := b.ops ++ [⟨OpKind.Put, key, value, b.ops.length⟩]
    size := b.size + (key.len + value.len) }

/-- Modelled from the spec: the missing `Batch.Delete` (section 4.1): appends
a Delete `PendingOp`, whose value is empty. -/
def Batch.Delete (b : Batch σ) (key : GoBytes) : Batch σ :=
  { b with
    ops := b.ops ++ [⟨OpKind.Delete, key, GoBytes.nil, b.ops.length⟩]
    size := b.size + key.len }

/-- Modelled from the spec: the missing `Batch.ValueSize` (section 4.1): the
accumulated byte size. -/
def Batch.ValueSize (b : Batch σ) : Nat := b.size

/-- Modelled from the spec: the command a `PendingOp` becomes in the
pipelined request of the missing `Batch.Write` (section 4.1). -/
def PendingOp.toCmd (db : Database σ) (op : PendingOp) : PipeCmd :=
  match op.kind with
  | OpKind.Put => PipeCmd.set (db.key op.key) op.value 0
  | OpKind.Delete => PipeCmd.del [db.key op.key]

/-- Modelled from the spec: the indices of the operations the backend
reported as failed (section 7, PartialBatchFailure), for the missing
`Batch.Write`. -/
def failedIndices (report : List GoError) : List Nat :=
  ((report.zip (List.range report.length)).filter (fun p => p.1.isSome)).map Prod.snd

/-- Modelled from the spec: the missing `Batch.Write` (section 4.1): sends
all pending operations, in insertion order, as one pipelined request, and
returns an error naming the failed operations if the backend reports any. -/
def Batch.Write (b : Batch σ) (s : σ) : GoError × σ :=
  let r := b.db.client.Pipeline (b.ops.map (PendingOp.toCmd b.db)) s
  if failedIndices r.1 = [] then
    (none, r.2)
  else
    (some (Err.partialBatchFailure (failedIndices r.1)), r.2)

/-- Modelled from the spec: the missing `Batch.Reset` (section 4.1): clears
all pending operations without flushing. -/
def Batch.Reset (b : Batch σ) : Batch σ :=
  { b with ops := [], size := 0 }

/-- Go `func (db *Database) NewBatch() ethdb.Batch`. -/
def Database.NewBatch (db : Database σ) : Batch σ :=
  newBatch db 0

/-- Go `func (db *Database) NewBatchWithSize(size int) ethdb.Batch`. -/
def Database.NewBatchWithSize (db : Database σ) (size : Int) : Batch σ :=
  newBatch db size

/-- A write appended to a batch, or applied to the database. -/
inductive WriteOp where
  | put (key value : GoBytes) : WriteOp
  | delete (key : GoBytes) : WriteOp
  deriving DecidableEq, Repr

/-- The key a write addresses. -/
def WriteOp.key : WriteOp → GoBytes
  | .put key _ => key
  | .delete key => key

/-- Appending one write to a batch, through `Batch.Put` or `Batch.Delete`. -/
def Batch.append (b : Batch σ) : WriteOp → Batch σ
  | .put key value => b.Put key value
  | .delete key => b.Delete key

/-- Last-writer-wins over a sequence of writes, for the key `k` whose stored
value was `before`: the last write in the sequence that addresses `k`
decides (a Put stores its value, a Delete removes the key), and without
such a write the key keeps what it had. -/
def lastWriterWins (ops : List WriteOp) (k : GoString) (before : Option GoString) :
    Option GoString :=
  match ops.reverse.find? (fun op => decide (op.key.bytes = k)) with
  | none => before
  | some (.put _ value) => some value.bytes
  | some (.delete _) => none

/-- Applying one write to the database, through `Database.Put` or
`Database.Delete`. -/
def Database.write (db : Database σ) (s : σ) : WriteOp → σ
  | .put key value => (db.Put key value s).2
  | .delete key => (db.Delete key s).2

/-! ## Prefix iterator -/

/-- Modelled from the spec: the byte-wise lexicographic order on keys
(section 3), `a ≤ b`; the key comparison of the missing `iterator.go`. -/
def keyLE : GoString → GoString → Bool
  | [], _ => true
  | _ :: _, [] => false
  | a :: as, b :: bs => decide (a < b) || (decide (a = b) && keyLE as bs)

/-- Modelled from the spec: the constants the missing `iterator.go` and
`snapshot.go` fix and the spec leaves open: the page-size hint of a scan and
the bound on the size of a multi-get batch; `maxPages` is the fuel of the
enumeration loop, the number of scan calls it may make before it comes back
to cursor 0. -/
structure Tuning where
  scanCount : Int
  fetchBatch : Nat
  maxPages : Nat
  deriving DecidableEq, Repr

/-- Modelled from the spec: adding the keys of a page to the set of keys
accumulated so far, a key already in the set not being added again (section
4.2, step 1, of the missing `iterator.go`). -/
def addKeys (acc : List GoString) (page : List GoString) : List GoString :=
  page.foldl (fun set k => if k ∈ set then set else set ++ [k]) acc

/-- Modelled from the spec: step 1 of section 4.2, the key enumeration of the
missing `iterator.go`: repeated pattern-scan calls from the given cursor, the
returned keys that match the bytes `pre` accumulated into a set, until the
backend reports cursor 0; a failed scan call aborts the enumeration, and so
does running out of the `maxPages` calls allowed. -/
def scanKeys (c : simpleClient σ) (pre : GoString) (count : Int) :
    Nat → Nat → List GoString → σ → (List GoString × GoError) × σ
  | 0, _, _, s => (([], some Err.scanIncomplete), s)
  | maxPages + 1, cursor, acc, s =>
    let r := c.Scan cursor pre count s
    if r.1.err ≠ none then
      (([], r.1.err), r.2)
    else if r.1.cursor = 0 then
      ((addKeys acc (r.1.keys.filter (fun k => pre.isPrefixOf k)), none), r.2)
    else
      scanKeys c pre count maxPages r.1.cursor
        (addKeys acc (r.1.keys.filter (fun k => pre.isPrefixOf k))) r.2

/-- Modelled from the spec: the value an entry carries for what a multi-get
returned for its key; a key absent by fetch time yields the not-found marker
(section 4.2, step 5). -/
def fetchedValue : Option GoString → GoBytes
  | some v => GoBytes.mk v
  | none => GoBytes.nil

/-- Modelled from the spec: `IteratorState` of section 3 for the missing
`iterator.go`: the prefix, the start key, the sorted list of matching keys
fixed at construction, the cursor (the number of keys whose values were
requested), the entries fetched ahead, the current entry and the first
error. -/
structure Iterator (σ : Type) where
  db : Database σ
  pre : GoBytes
  start : GoBytes
  keys : List GoString
  cursor : Nat
  fetchBatch : Nat
  buffer : List (GoString × GoBytes)
  current : Option (GoString × GoBytes)
  err : GoError

/-- Modelled from the spec: the missing constructor `newIterator(db, prefix,
start)`, steps 1 to 4 of section 4.2: enumerate and deduplicate the keys
matching the prefix, sort them, discard the keys strictly less than `start`.
A failed enumeration gives an iterator without keys that reports the error. -/
def newIterator (t : Tuning) (db : Database σ) (pre start : GoBytes) (s : σ) : Iterator σ × σ :=
  let r := scanKeys db.client (db.key pre) t.scanCount t.maxPages 0 [] s
  if r.1.2 ≠ none then
    (⟨db, pre, start, [], 0, t.fetchBatch, [], none, r.1.2⟩, r.2)
  else
    (⟨db, pre, start,
        ((r.1.1.insertionSort (fun a b => keyLE a b = true)).filter
          (fun k => keyLE (db.key start) k)),
        0, t.fetchBatch, [], none, none⟩, r.2)

/-- Modelled from the spec: the missing `Iterator.Next` (section 4.2): moves
to the next entry and reports whether there is one; when no fetched entry is
left, the values of the next `fetchBatch` keys are read in one multi-get. -/
def Iterator.Next (it : Iterator σ) (s : σ) : (Bool × Iterator σ) × σ :=
  if it.err ≠ none then
    ((false, { it with current := none }), s)
  else
    match it.buffer with
    | p :: rest => ((true, { it with buffer := rest, current := some p }), s)
    | [] =>
      if (it.keys.drop it.cursor).take it.fetchBatch = [] then
        ((false, { it with current := none }), s)
      else
        let r := it.db.client.MGet ((it.keys.drop it.cursor).take it.fetchBatch) s
        if r.1.err ≠ none then
          ((false, { it with current := none, err := r.1.err }), r.2)
        else
          match ((it.keys.drop it.cursor).take it.fetchBatch).zip (r.1.val.map fetchedValue) with
          | [] => ((false, { it with cursor := it.cursor + it.fetchBatch, current := none }), r.2)
          | p :: rest =>
            ((true, { it with
                cursor := it.cursor + it.fetchBatch, buffer := rest, current := some p }), r.2)

/-- Modelled from the spec: the missing `Iterator.Key`: the key of the
current entry. -/
def Iterator.Key (it : Iterator σ) : GoBytes :=
  match it.current with
  | some p => GoString.toGoBytes p.1
  | none => GoBytes.nil

/-- Modelled from the spec: the missing `Iterator.Value`: the value of the
current entry. -/
def Iterator.Value (it : Iterator σ) : GoBytes :=
  match it.current with
  | some p => p.2
  | none => GoBytes.nil

/-- Modelled from the spec: the missing `Iterator.Error` (section 4.2): the
first error met during the scan or a value fetch. -/
def Iterator.Error (it : Iterator σ) : GoError := it.err

/-- Modelled from the spec: the missing `Iterator.Release` (section 4.2):
frees what the iterator holds. -/
def Iterator.Release (it : Iterator σ) : Iterator σ :=
  { it with keys := [], cursor := 0, buffer := [], current := none }

/-- The sequence an iterator yields: the `(Key(), Value())` of every entry
`Next()` reaches, for at most `fuel` calls of `Next()`. -/
def Iterator.collect : Nat → Iterator σ → σ → List (GoBytes × GoBytes) × σ
  | 0, _, s => ([], s)
  | fuel + 1, it, s =>
    let r := it.Next s
    if r.1.1 then
      ((r.1.2.Key, r.1.2.Value) :: (Iterator.collect fuel r.1.2 r.2).1,
        (Iterator.collect fuel r.1.2 r.2).2)
    else
      ([], r.2)

/-- Go `func (db *Database) NewIterator(prefix []byte, start []byte)
ethdb.Iterator`. -/
def Database.NewIterator (db : Database σ) (t : Tuning) (pre start : GoBytes) (s : σ) :
    Iterator σ × σ :=
  newIterator t db pre start s

/-- The sequence of `(key, value)` pairs the iterator returned by
`NewIterator(prefix, start)` yields when it is read to its end (with at most
`fuel` calls of `Next()`), the backend not being written meanwhile. -/
def Database.iterate (db : Database σ) (t : Tuning) (pre start : GoBytes) (fuel : Nat) (s : σ) :
    List (GoBytes × GoBytes) :=
  ((db.NewIterator t pre start s).1.collect fuel (db.NewIterator t pre start s).2).1

/-! ## Snapshot -/

/-- Modelled from the spec: `SnapshotState` of section 3 for the missing
`snapshot.go`: an immutable mapping from key to value, kept as an association
list. -/
structure Snapshot where
  mapping : List (GoString × GoString)
  deriving DecidableEq, Repr

/-- Modelled from the spec: the missing constructor `newSnapshot(db)`
(section 4.3): enumerate the keys as the iterator does, with the empty
prefix, then bulk-fetch their values into the mapping; a key without a value
at fetch time is not captured. A failed enumeration or fetch fails the
construction. -/
def newSnapshot (t : Tuning) (db : Database σ) (s : σ) : (Snapshot × GoError) × σ :=
  let r := scanKeys db.client [] t.scanCount t.maxPages 0 [] s
  if r.1.2 ≠ none then
    ((⟨[]⟩, r.1.2), r.2)
  else
    let m := db.client.MGet r.1.1 r.2
    if m.1.err ≠ none then
      ((⟨[]⟩, m.1.err), m.2)
    else
      ((⟨(r.1.1.zip m.1.val).filterMap (fun p => p.2.map (fun v => (p.1, v)))⟩, none), m.2)

/-- Modelled from the spec: the missing `Snapshot.Get` (section 4.3): the
value from the in-memory mapping only (`none` when the key was not
captured); the backend is not touched. -/
def Snapshot.Get (snap : Snapshot) (key : GoBytes) (s : σ) : Option GoBytes × σ :=
  ((Store.get snap.mapping key.toGoString).map GoString.toGoBytes, s)

/-- Modelled from the spec: the missing `Snapshot.Has` (section 4.3):
membership in the mapping. -/
def Snapshot.Has (snap : Snapshot) (key : GoBytes) (s : σ) : Bool × σ :=
  ((Store.get snap.mapping key.toGoString).isSome, s)

/-- Modelled from the spec: the missing `Snapshot.Release` (section 4.3):
discards the copy. -/
def Snapshot.Release (_snap : Snapshot) : Snapshot := ⟨[]⟩

/-- Go `func (db *Database) NewSnapshot() (ethdb.Snapshot, error)`. -/
def Database.NewSnapshot (db : Database σ) (t : Tuning) (s : σ) : (Snapshot × GoError) × σ :=
  newSnapshot t db s

/-! ## Facts about the in-memory store -/

theorem Store.get_del_self (s : Store) (k : GoString) : Store.get (Store.del s k) k = none := by
  induction s with
  | nil => rfl
  | cons p rest ih =>
    obtain ⟨k', v⟩ := p
    by_cases h : k' = k
    · simpa [Store.del, h] using ih
    · simpa [Store.del, Store.get, h] using ih

theorem Store.get_del_other (s : Store) (k k2 : GoString) (h : k ≠ k2) :
    Store.get (Store.del s k) k2 = Store.get s k2 := by
  induction s with
  | nil => rfl
  | cons p rest ih =>
    obtain ⟨k', v⟩ := p
    by_cases h1 : k' = k
    · have h2 : ¬ k' = k2 := fun e => h (h1.symm.trans e)
      simpa [Store.del, Store.get, h1, h2, h] using ih
    · by_cases h2 : k' = k2
      · subst h2
        simp [Store.del, Store.get, h1]
      · simpa [Store.del, Store.get, h1, h2] using ih

theorem Store.get_set_self (s : Store) (k v : GoString) :
    Store.get (Store.set s k v) k = some v := by
  simp [Store.set, Store.get]

theorem Store.get_set_other (s : Store) (k k2 v : GoString) (h : k ≠ k2) :
    Store.get (Store.set s k v) k2 = Store.get s k2 := by
  simp [Store.set, Store.get, h, Store.get_del_other s k k2 h]

/-! ## Facts about batches -/

theorem memDB_write_put (s : Store) (key value : GoBytes) :
    (memDB none).write s (WriteOp.put key value) = Store.set s key.bytes value.bytes := rfl

theorem memDB_write_delete (s : Store) (key : GoBytes) :
    (memDB none).write s (WriteOp.delete key) = Store.del s key.bytes := rfl

theorem Batch.append_db (b : Batch σ) (op : WriteOp) : (b.append op).db = b.db := by
  cases op <;> rfl

theorem Batch.foldl_append_db (ops : List WriteOp) (b : Batch σ) :
    (ops.foldl Batch.append b).db = b.db := by
  induction ops generalizing b with
  | nil => rfl
  | cons op rest ih => rw [List.foldl_cons, ih, Batch.append_db]

/-- Running the commands of a batch on the in-memory store is applying its
writes one after the other. -/
theorem Batch.apply_foldl_append (ops : List WriteOp) (b : Batch Store) (s : Store)
    (hdb : b.db = memDB none) :
    ((ops.foldl Batch.append b).ops.map (PendingOp.toCmd (memDB none))).foldl Store.apply s
      = ops.foldl (memDB none).write
          ((b.ops.map (PendingOp.toCmd (memDB none))).foldl Store.apply s) := by
  induction ops generalizing b with
  | nil => rfl
  | cons op rest ih =>
    rw [List.foldl_cons, ih (b.append op) (by rw [Batch.append_db, hdb]), List.foldl_cons]
    congr 1
    cases op <;>
      simp [Batch.append, Batch.Put, Batch.Delete, List.foldl_append, PendingOp.toCmd,
        Store.apply, Database.key, GoBytes.toGoString, memDB_write_put, memDB_write_delete]

theorem failedIndices_of_all_none (n : List PipeCmd) :
    failedIndices (n.map (fun _ => (none : GoError))) = [] := by
  unfold failedIndices
  rw [List.map_eq_nil_iff, List.filter_eq_nil_iff]
  intro p hp
  have h := (List.of_mem_zip hp).1
  simp only [List.mem_map] at h
  obtain ⟨_, _, h⟩ := h
  simp [← h]

/-- Applying writes one after the other to the in-memory store leaves every
key with what last-writer-wins gives it. -/
theorem Store.get_foldl_write (ops : List WriteOp) (s : Store) (k : GoString) :
    Store.get (ops.foldl (memDB none).write s) k = lastWriterWins ops k (Store.get s k) := by
  induction ops using List.reverseRecOn with
  | nil => rfl
  | append_singleton init op ih =>
    rw [List.foldl_append, List.foldl_cons, List.foldl_nil]
    unfold lastWriterWins at ih ⊢
    rw [List.reverse_append, List.reverse_singleton, List.singleton_append, List.find?_cons]
    cases op with
    | put key value =>
      by_cases h : key.bytes = k
      · subst h
        simp [WriteOp.key, memDB_write_put, Store.get_set_self]
      · simp only [WriteOp.key, h, decide_False, memDB_write_put]
        rw [Store.get_set_other _ _ _ _ h]
        exact ih
    | delete key =>
      by_cases h : key.bytes = k
      · subst h
        simp [WriteOp.key, memDB_write_delete, Store.get_del_self]
      · simp only [WriteOp.key, h, decide_False, memDB_write_delete]
        rw [Store.get_del_other _ _ _ h]
        exact ih

/-! ## Facts about key enumeration -/

theorem pageSize_pos (count : Int) : 0 < pageSize count := by
  unfold pageSize
  split_ifs with h
  · decide
  · omega

theorem mem_addKeys (page acc : List GoString) (k : GoString) :
    k ∈ addKeys acc page ↔ k ∈ acc ∨ k ∈ page := by
  induction page generalizing acc with
  | nil => simp [addKeys]
  | cons a rest ih =>
    have h := ih (if a ∈ acc then acc else acc ++ [a])
    unfold addKeys at h ⊢
    rw [List.foldl_cons, h]
    by_cases ha : a ∈ acc
    · simp only [ha, if_true, List.mem_cons]
      constructor
      · rintro (h1 | h1)
        · exact Or.inl h1
        · exact Or.inr (Or.inr h1)
      · rintro (h1 | h1 | h1)
        · exact Or.inl h1
        · exact Or.inl (h1 ▸ ha)
        · exact Or.inr h1
    · simp only [ha, if_false, List.mem_append, List.mem_singleton, List.mem_cons]
      tauto

theorem nodup_addKeys (page acc : List GoString) (h : acc.Nodup) : (addKeys acc page).Nodup := by
  induction page generalizing acc with
  | nil => simpa [addKeys] using h
  | cons a rest ih =>
    unfold addKeys
    rw [List.foldl_cons]
    apply ih
    by_cases ha : a ∈ acc
    · simpa [ha] using h
    · simp only [ha, if_false]
      exact List.Nodup.append h (List.nodup_singleton a) (by simpa using ha)

theorem memClient_Scan (cursor : Nat) (pre : GoString) (count : Int) (s : Store) :
    (memClient none).Scan cursor pre count s
      = (⟨(((s.drop cursor).take (pageSize count)).map Prod.fst).filter
            (fun k => pre.isPrefixOf k),
          if cursor + pageSize count < s.length then cursor + pageSize count else 0,
          none⟩, s) := rfl

theorem scanKeys_memClient (s : Store) (pre : GoString) (count : Int) :
    ∀ (maxPages cursor : Nat) (acc : List GoString),
      s.length - cursor < maxPages → acc.Nodup →
      ∃ ks, scanKeys (memClient none) pre count maxPages cursor acc s = ((ks, none), s) ∧
        ks.Nodup ∧
        ∀ k, k ∈ ks ↔
          (k ∈ acc ∨ (k ∈ (s.drop cursor).map Prod.fst ∧ pre.isPrefixOf k = true)) := by
  intro maxPages
  induction maxPages with
  | zero => intro cursor acc h; omega
  | succ n ih =>
    intro cursor acc hlen hacc
    have hp := pageSize_pos count
    have hsplit : s.drop cursor
        = (s.drop cursor).take (pageSize count) ++ s.drop (cursor + pageSize count) := by
      rw [← List.drop_drop, List.take_append_drop]
    unfold scanKeys
    rw [memClient_Scan]
    by_cases hc : cursor + pageSize count < s.length
    · have hne : cursor + pageSize count ≠ 0 := by omega
      simp only [hc, if_true, ne_eq, not_true_eq_false, if_false, hne]
      obtain ⟨ks, hks, hnd, hmem⟩ := ih (cursor + pageSize count) _
        (by omega) (nodup_addKeys _ _ hacc)
      refine ⟨ks, hks, hnd, ?_⟩
      intro k
      rw [hmem k]
      conv_rhs => rw [hsplit]
      simp only [mem_addKeys, List.mem_filter, List.map_append, List.mem_append]
      tauto
    · simp only [hc, if_false, ne_eq, not_true_eq_false, if_true]
      refine ⟨_, rfl, nodup_addKeys _ _ hacc, ?_⟩
      intro k
      have hnil : s.drop (cursor + pageSize count) = [] := List.drop_eq_nil_of_le (by omega)
      conv_rhs => rw [hsplit, hnil, List.append_nil]
      simp only [mem_addKeys, List.mem_filter]
      tauto

theorem keyLE_refl (a : GoString) : keyLE a a = true := by
  induction a with
  | nil => rfl
  | cons x xs ih => simp [keyLE, ih]

theorem keyLE_total (a b : GoString) : keyLE a b = true ∨ keyLE b a = true := by
  induction a generalizing b with
  | nil => exact Or.inl rfl
  | cons x xs ih =>
    cases b with
    | nil => exact Or.inr rfl
    | cons y ys =>
      simp only [keyLE, Bool.or_eq_true, Bool.and_eq_true, decide_eq_true_eq]
      rcases lt_trichotomy x y with h | h | h
      · exact Or.inl (Or.inl h)
      · rcases ih ys with h1 | h1
        · exact Or.inl (Or.inr ⟨h, h1⟩)
        · exact Or.inr (Or.inr ⟨h.symm, h1⟩)
      · exact Or.inr (Or.inl h)

theorem keyLE_trans (a b c : GoString) (h1 : keyLE a b = true) (h2 : keyLE b c = true) :
    keyLE a c = true := by
  induction a generalizing b c with
  | nil => rfl
  | cons x xs ih =>
    cases b with
    | nil => simp [keyLE] at h1
    | cons y ys =>
      cases c with
      | nil => simp [keyLE] at h2
      | cons z zs =>
        simp only [keyLE, Bool.or_eq_true, Bool.and_eq_true, decide_eq_true_eq] at h1 h2 ⊢
        rcases h1 with h1 | ⟨h1, h1r⟩
        · rcases h2 with h2 | ⟨h2, _⟩
          · exact Or.inl (lt_trans h1 h2)
          · exact Or.inl (h2 ▸ h1)
        · rcases h2 with h2 | ⟨h2, h2r⟩
          · exact Or.inl (h1 ▸ h2)
          · exact Or.inr ⟨h1.trans h2, ih ys zs h1r h2r⟩

theorem keyLE_antisymm (a b : GoString) (h1 : keyLE a b = true) (h2 : keyLE b a = true) :
    a = b := by
  induction a generalizing b with
  | nil =>
    cases b with
    | nil => rfl
    | cons y ys => simp [keyLE] at h2
  | cons x xs ih =>
    cases b with
    | nil => simp [keyLE] at h1
    | cons y ys =>
      simp only [keyLE, Bool.or_eq_true, Bool.and_eq_true, decide_eq_true_eq] at h1 h2
      rcases h1 with h1 | ⟨h1, h1r⟩
      · rcases h2 with h2 | ⟨h2, _⟩
        · exact absurd (lt_trans h1 h2) (lt_irrefl _)
        · exact absurd (h2 ▸ h1) (lt_irrefl _)
      · rcases h2 with h2 | ⟨_, h2r⟩
        · exact absurd (h1 ▸ h2) (lt_irrefl _)
        · rw [h1, ih ys h1r h2r]

/-- The order `keyLE` is the lexicographic order of byte lists. -/
theorem keyLE_iff_le (a b : GoString) : keyLE a b = true ↔ a ≤ b := by
  rw [← not_lt]
  show keyLE a b = true ↔ ¬ List.Lex (fun x y => x < y) b a
  induction a generalizing b with
  | nil =>
    simp only [keyLE, true_iff]
    intro h
    cases h
  | cons x xs ih =>
    cases b with
    | nil =>
      simp only [keyLE, Bool.false_eq_true, false_iff, not_not]
      exact List.Lex.nil
    | cons y ys =>
      simp only [keyLE, Bool.or_eq_true, Bool.and_eq_true, decide_eq_true_eq]
      constructor
      · rintro (h | ⟨h, h1⟩) hlt
        · cases hlt with
          | cons _ => exact lt_irrefl _ h
          | rel h2 => exact lt_asymm h h2
        · cases hlt with
          | cons h2 => exact (ih ys).mp h1 h2
          | rel h2 => exact absurd (h ▸ h2) (lt_irrefl _)
      · intro hn
        rcases lt_trichotomy x y with h | h | h
        · exact Or.inl h
        · refine Or.inr ⟨h, (ih ys).mpr fun h2 => hn ?_⟩
          subst h
          exact List.Lex.cons h2
        · exact absurd (List.Lex.rel h) hn

/-- The keys of a new iterator's list are sorted strictly ascending. -/
theorem sorted_filter_insertionSort (l : List GoString) (p : GoString → Bool) (h : l.Nodup) :
    ((l.insertionSort (fun a b => keyLE a b = true)).filter p).Pairwise
      (fun a b => keyLE a b = true ∧ a ≠ b) := by
  have hs : (l.insertionSort (fun a b => keyLE a b = true)).Sorted
      (fun a b => keyLE a b = true) :=
    @List.sorted_insertionSort _ (fun a b => keyLE a b = true) _
      ⟨keyLE_total⟩ ⟨keyLE_trans⟩ l
  have hn : (l.insertionSort (fun a b => keyLE a b = true)).Nodup :=
    (List.perm_insertionSort _ l).nodup_iff.mpr h
  exact List.Pairwise.filter p (List.Pairwise.and hs hn)

theorem mem_filter_insertionSort (l : List GoString) (p : GoString → Bool) (k : GoString) :
    k ∈ (l.insertionSort (fun a b => keyLE a b = true)).filter p ↔ k ∈ l ∧ p k = true := by
  rw [List.mem_filter, (List.perm_insertionSort _ l).mem_iff]

theorem Store.mem_keys_iff (s : Store) (k : GoString) :
    k ∈ s.map Prod.fst ↔ Store.get s k ≠ none := by
  induction s with
  | nil => simp [Store.get]
  | cons p rest ih =>
    obtain ⟨k1, v⟩ := p
    by_cases h : k1 = k
    · simp [Store.get, h]
    · simp only [List.map_cons, List.mem_cons, Store.get, h, if_false, ih]
      constructor
      · rintro (h1 | h1)
        · exact absurd h1.symm h
        · exact h1
      · exact Or.inr

/-! ## Facts about iteration -/

theorem zip_map_fetched (s : Store) (ks : List GoString) :
    ks.zip (((ks.map (Store.get s))).map fetchedValue)
      = ks.map (fun k => (k, fetchedValue (Store.get s k))) := by
  induction ks with
  | nil => rfl
  | cons k rest ih =>
    simp only [List.map_cons, List.zip_cons_cons, ih]

theorem Iterator.Next_buffered (it : Iterator σ) (s : σ) (p : GoString × GoBytes)
    (rest : List (GoString × GoBytes)) (herr : it.err = none) (hb : it.buffer = p :: rest) :
    it.Next s = ((true, { it with buffer := rest, current := some p }), s) := by
  unfold Iterator.Next
  simp [herr, hb]

theorem Iterator.Next_exhausted (it : Iterator σ) (s : σ) (herr : it.err = none)
    (hb : it.buffer = []) (hk : (it.keys.drop it.cursor).take it.fetchBatch = []) :
    it.Next s = ((false, { it with current := none }), s) := by
  unfold Iterator.Next
  simp [herr, hb, hk]

theorem Iterator.Next_fetch (it : Iterator Store) (s : Store) (k : GoString)
    (ks : List GoString) (hdb : it.db = memDB none) (herr : it.err = none)
    (hb : it.buffer = []) (hk : (it.keys.drop it.cursor).take it.fetchBatch = k :: ks) :
    it.Next s = ((true, { it with
        cursor := it.cursor + it.fetchBatch
        buffer := ks.map (fun k => (k, fetchedValue (Store.get s k)))
        current := some (k, fetchedValue (Store.get s k)) }), s) := by
  have hm : it.db.client.MGet (k :: ks) s = (⟨(k :: ks).map (Store.get s), none⟩, s) := by
    rw [hdb]
    rfl
  unfold Iterator.Next
  simp only [herr, hb, hk, hm, zip_map_fetched]
  simp

theorem Iterator.collect_memDB (s : Store) : ∀ (fuel : Nat) (it : Iterator Store),
    it.db = memDB none → it.err = none → 0 < it.fetchBatch →
    (it.keys.length - it.cursor) + it.buffer.length < fuel →
    it.collect fuel s =
      ((it.buffer ++ (it.keys.drop it.cursor).map
          (fun k => (k, fetchedValue (Store.get s k)))).map
        (fun p => (GoString.toGoBytes p.1, p.2)), s) := by
  intro fuel
  induction fuel with
  | zero => intro it _ _ _ h; omega
  | succ n ih =>
    intro it hdb herr hbatch hfuel
    unfold Iterator.collect
    cases hb : it.buffer with
    | cons p rest =>
      rw [Iterator.Next_buffered it s p rest herr hb]
      rw [hb] at hfuel
      have h := ih { it with buffer := rest, current := some p } hdb herr hbatch
        (by simp only [List.length_cons] at hfuel; simp only; omega)
      simp only at h
      simp [h, Iterator.Key, Iterator.Value]
    | nil =>
      rw [hb] at hfuel
      cases hk : (it.keys.drop it.cursor).take it.fetchBatch with
      | nil =>
        rw [Iterator.Next_exhausted it s herr hb hk]
        have hd : it.keys.drop it.cursor = [] := by
          rcases List.take_eq_nil_iff.mp hk with h | h
          · omega
          · exact h
        simp [hd]
      | cons k ks =>
        rw [Iterator.Next_fetch it s k ks hdb herr hb hk]
        have hlen : ks.length + 1 ≤ it.keys.length - it.cursor := by
          have h1 := congrArg List.length hk
          simp only [List.length_take, List.length_drop, List.length_cons] at h1
          omega
        have hlen2 : ks.length + 1 ≤ it.fetchBatch := by
          have h1 := congrArg List.length hk
          simp only [List.length_take, List.length_drop, List.length_cons] at h1
          omega
        have h := ih { it with
            cursor := it.cursor + it.fetchBatch
            buffer := ks.map (fun k => (k, fetchedValue (Store.get s k)))
            current := some (k, fetchedValue (Store.get s k)) } hdb herr hbatch
          (by simp only [List.length_map, List.length_nil] at hfuel ⊢; omega)
        simp only at h
        have hsplit : it.keys.drop it.cursor
            = (k :: ks) ++ it.keys.drop (it.cursor + it.fetchBatch) := by
          rw [← hk, ← List.drop_drop, List.take_append_drop]
        simp [h, Iterator.Key, Iterator.Value, hsplit]

/-- What reading a new iterator over the in-memory backend yields. -/
theorem iterate_memDB (s : Store) (t : Tuning) (pre start : GoBytes) (fuel : Nat)
    (hbatch : 0 < t.fetchBatch) (hpages : s.length < t.maxPages) (hfuel : s.length < fuel) :
    ∃ keys : List GoString,
      (memDB none).iterate t pre start fuel s
        = keys.map (fun k => (GoBytes.mk k, fetchedValue (Store.get s k))) ∧
      keys.Pairwise (fun a b => keyLE a b = true ∧ a ≠ b) ∧
      ∀ k, k ∈ keys ↔
        (Store.get s k ≠ none ∧ pre.bytes <+: k ∧ keyLE start.bytes k = true) := by
  obtain ⟨ks, hks, hnd, hmem⟩ :=
    scanKeys_memClient s pre.bytes t.scanCount t.maxPages 0 [] (by omega) List.nodup_nil
  have hsub : ks.length ≤ s.length := by
    have h1 : ks ⊆ s.map Prod.fst := by
      intro k hk
      rcases (hmem k).mp hk with h | h
      · simp at h
      · simpa using h.1
    simpa using (List.subperm_of_subset hnd h1).length_le
  refine ⟨(ks.insertionSort (fun a b => keyLE a b = true)).filter
      (fun k => keyLE start.bytes k), ?_, sorted_filter_insertionSort ks _ hnd, ?_⟩
  · have hnew : (memDB none).NewIterator t pre start s
        = (⟨memDB none, pre, start,
            (ks.insertionSort (fun a b => keyLE a b = true)).filter
              (fun k => keyLE start.bytes k), 0, t.fetchBatch, [], none, none⟩, s) := by
      unfold Database.NewIterator newIterator
      have hks2 : scanKeys (memDB none).client ((memDB none).key pre) t.scanCount t.maxPages 0 [] s
          = ((ks, none), s) := hks
      simp only [hks2, ne_eq, not_true_eq_false, if_false]
      rfl
    unfold Database.iterate
    rw [hnew]
    have hlen : ((ks.insertionSort (fun a b => keyLE a b = true)).filter
        (fun k => keyLE start.bytes k)).length ≤ ks.length := by
      refine le_trans (List.length_filter_le _ _) ?_
      rw [List.length_insertionSort]
    rw [Iterator.collect_memDB s fuel _ rfl rfl hbatch (by simp only [List.length_nil]; omega)]
    simp [GoString.toGoBytes]
  · intro k
    rw [mem_filter_insertionSort, hmem k, List.drop_zero, Store.mem_keys_iff,
      List.isPrefixOf_iff_prefix]
    simp [and_assoc]

/-! ## Facts about snapshots -/

theorem Store.get_captured (s : Store) (l : List GoString) (k : GoString) :
    Store.get ((l.zip (l.map (Store.get s))).filterMap (fun p => p.2.map (fun v => (p.1, v)))) k
      = if k ∈ l then Store.get s k else none := by
  induction l with
  | nil => rfl
  | cons a rest ih =>
    simp only [List.map_cons, List.zip_cons_cons, List.filterMap_cons]
    cases ha : Store.get s a with
    | none =>
      simp only [Option.map_none', ih, List.mem_cons]
      by_cases hk : k = a
      · subst hk
        simp [ha]
      · simp [hk]
    | some v =>
      simp only [Option.map_some', Store.get, ih, List.mem_cons]
      by_cases hk : a = k
      · subst hk
        simp [ha]
      · have hk2 : ¬ k = a := fun e => hk e.symm
        simp [hk, hk2]

/-- A snapshot of the in-memory backend captures the store as it is. -/
theorem newSnapshot_memDB (s : Store) (t : Tuning) (hpages : s.length < t.maxPages) :
    ∃ snap : Snapshot, (memDB none).NewSnapshot t s = ((snap, none), s) ∧
      ∀ k, Store.get snap.mapping k = Store.get s k := by
  obtain ⟨ks, hks, _, hmem⟩ :=
    scanKeys_memClient s [] t.scanCount t.maxPages 0 [] (by omega) List.nodup_nil
  refine ⟨⟨(ks.zip (ks.map (Store.get s))).filterMap (fun p => p.2.map (fun v => (p.1, v)))⟩,
    ?_, ?_⟩
  · unfold Database.NewSnapshot newSnapshot
    have hks2 : scanKeys (memDB none).client [] t.scanCount t.maxPages 0 [] s
        = ((ks, none), s) := hks
    have hm : (memDB none).client.MGet ks s = (⟨ks.map (Store.get s), none⟩, s) := rfl
    simp only [hks2, hm, ne_eq, not_true_eq_false, if_false]
  · intro k
    rw [Store.get_captured]
    split_ifs with h
    · rfl
    · have h1 : k ∉ s.map Prod.fst := by
        intro hk
        exact h ((hmem k).mpr (Or.inr ⟨by simpa using hk, by simp⟩))
      rw [Store.mem_keys_iff, not_not] at h1
      exact h1.symm

/-! ## Point operations -/

/-- C1 (as stated, refuted): on the in-memory backend `Put(k, nil)` succeeds,
and `Get(k)` on the resulting state does not return the nil slice that was
put: it returns a non-nil slice of length 0. -/
theorem Put_nil_then_Get_ne :
    ((memDB none).Put (GoBytes.mk [97]) GoBytes.nil []).1 = none ∧
    ((memDB none).Get (GoBytes.mk [97])
        ((memDB none).Put (GoBytes.mk [97]) GoBytes.nil []).2).1 ≠ (GoBytes.nil, none) ∧
    ((memDB none).Get (GoBytes.mk [97])
        ((memDB none).Put (GoBytes.mk [97]) GoBytes.nil []).2).1 = (GoBytes.mk [], none) := by
  decide

/-- C1 (amended): on the in-memory backend, when `Put(k, v)` succeeds,
`Get(k)` on the resulting state returns, with a nil error and without
changing the state, a non-nil slice holding exactly the bytes of `v`; this is
`v` itself for every non-nil `v`. -/
theorem Put_then_Get (fault : GoError) (s : Store) (k v : GoBytes)
    (hput : ((memDB fault).Put k v s).1 = none) :
    (memDB fault).Get k ((memDB fault).Put k v s).2
      = ((GoBytes.mk v.bytes, none), ((memDB fault).Put k v s).2) ∧
    (v.isNil = false → ((memDB fault).Get k ((memDB fault).Put k v s).2).1 = (v, none)) := by
  cases fault with
  | some e => simp [memDB, memClient, Database.Put] at hput
  | none =>
    refine ⟨?_, ?_⟩
    · simp [memDB, memClient, Database.Put, Database.Get, Database.key, GoBytes.toGoString,
        Store.get_set_self, GoString.toGoBytes]
    · intro hv
      cases v with
      | nil => simp [GoBytes.isNil] at hv
      | mk data =>
        simp [memDB, memClient, Database.Put, Database.Get, Database.key, GoBytes.toGoString,
          Store.get_set_self, GoString.toGoBytes, GoBytes.bytes]

theorem Put_then_Get_witness :
    ((memDB none).Put (GoBytes.mk [97]) (GoBytes.mk [1, 2]) [([97], [9])]).1 = none ∧
    (memDB none).Get (GoBytes.mk [97])
        ((memDB none).Put (GoBytes.mk [97]) (GoBytes.mk [1, 2]) [([97], [9])]).2
      = ((GoBytes.mk (GoBytes.mk [1, 2]).bytes, none),
          ((memDB none).Put (GoBytes.mk [97]) (GoBytes.mk [1, 2]) [([97], [9])]).2) :=
  ⟨by decide,
    (Put_then_Get none [([97], [9])] (GoBytes.mk [97]) (GoBytes.mk [1, 2]) (by decide)).1⟩

/-- C2: on the in-memory backend, when `Delete(k)` succeeds, `Has(k)` on the
resulting state returns `(false, nil)`, whether or not `k` was stored. -/
theorem Delete_then_Has (fault : GoError) (s : Store) (k : GoBytes)
    (hdel : ((memDB fault).Delete k s).1 = none) :
    (memDB fault).Has k ((memDB fault).Delete k s).2
      = ((false, none), ((memDB fault).Delete k s).2) := by
  cases fault with
  | some e => simp [memDB, memClient, Database.Delete] at hdel
  | none =>
    simp [memDB, memClient, Database.Delete, Database.Has, Database.key, GoBytes.toGoString,
      Store.get_del_self]

theorem Delete_then_Has_witness :
    ((memDB none).Delete (GoBytes.mk [97]) [([98], [3]), ([97], [9])]).1 = none ∧
    (memDB none).Has (GoBytes.mk [97])
        ((memDB none).Delete (GoBytes.mk [97]) [([98], [3]), ([97], [9])]).2
      = ((false, none), ((memDB none).Delete (GoBytes.mk [97]) [([98], [3]), ([97], [9])]).2) :=
  ⟨by decide, Delete_then_Has none [([98], [3]), ([97], [9])] (GoBytes.mk [97]) (by decide)⟩

/-- C3: when the backend `Get` reports the not-found marker `redis.Nil` for
the key, `Database.Get` returns the absent result (the nil slice) together
with a nil error, after that one backend call. -/
theorem Get_absent (db : Database σ) (s : σ) (k : GoBytes)
    (habsent : (db.client.Get (db.key k) s).1.err = some Err.redisNil) :
    db.Get k s = ((GoBytes.nil, none), (db.client.Get (db.key k) s).2) := by
  simp [Database.Get, habsent]

theorem Get_absent_witness :
    ((memDB none).client.Get ((memDB none).key (GoBytes.mk [97])) [([98], [3])]).1.err
        = some Err.redisNil ∧
    (memDB none).Get (GoBytes.mk [97]) [([98], [3])]
      = ((GoBytes.nil, none),
          ((memDB none).client.Get ((memDB none).key (GoBytes.mk [97])) [([98], [3])]).2) :=
  ⟨by decide, Get_absent (memDB none) [([98], [3])] (GoBytes.mk [97]) (by decide)⟩

/-- C4: each of `Has`, `Get`, `Put`, `Delete` and `Stat` returns the error
`e` exactly when its backend call failed with `e` (for `Get`: with an `e`
other than `redis.Nil`), leaves the backend in the state that call left it
in, and makes exactly one backend call. -/
theorem errors_propagate (db : Database σ) (s : σ) (key value : GoBytes) (property : GoString)
    (n : Nat) :
    ((∀ e, (db.Has key s).1.2 = some e ↔ (db.client.Exists [db.key key] s).1.err = some e) ∧
      (db.Has key s).2 = (db.client.Exists [db.key key] s).2 ∧
      ((Database.mk (counted db.client)).Has key (s, n)).2.2 = n + 1) ∧
    ((∀ e, (db.Get key s).1.2 = some e ↔
        ((db.client.Get (db.key key) s).1.err = some e ∧ e ≠ Err.redisNil)) ∧
      (db.Get key s).2 = (db.client.Get (db.key key) s).2 ∧
      ((Database.mk (counted db.client)).Get key (s, n)).2.2 = n + 1) ∧
    ((∀ e, (db.Put key value s).1 = some e ↔
        (db.client.Set (db.key key) value 0 s).1.err = some e) ∧
      (db.Put key value s).2 = (db.client.Set (db.key key) value 0 s).2 ∧
      ((Database.mk (counted db.client)).Put key value (s, n)).2.2 = n + 1) ∧
    ((∀ e, (db.Delete key s).1 = some e ↔ (db.client.Del [db.key key] s).1.err = some e) ∧
      (db.Delete key s).2 = (db.client.Del [db.key key] s).2 ∧
      ((Database.mk (counted db.client)).Delete key (s, n)).2.2 = n + 1) ∧
    ((∀ e, (db.Stat property s).1.2 = some e ↔ (db.client.ConfigGet property s).1.err = some e) ∧
      (db.Stat property s).2 = (db.client.ConfigGet property s).2 ∧
      ((Database.mk (counted db.client)).Stat property (s, n)).2.2 = n + 1) := by
  refine ⟨⟨?_, ?_, ?_⟩, ⟨?_, ?_, ?_⟩, ⟨?_, ?_, ?_⟩, ⟨?_, ?_, ?_⟩, ⟨?_, ?_, ?_⟩⟩
  · intro e
    unfold Database.Has
    cases h : (db.client.Exists [db.key key] s).1.err <;> simp [h]
  · dsimp only [Database.Has]
    split_ifs <;> rfl
  · dsimp only [Database.Has]
    split_ifs <;> rfl
  · intro e
    unfold Database.Get
    cases h : (db.client.Get (db.key key) s).1.err with
    | none => simp [h]
    | some e1 =>
      by_cases h1 : e1 = Err.redisNil
      · subst h1
        simp [h]
        intro h2
        exact h2.symm
      · simp [h, h1]
        intro h2
        subst h2
        exact h1
  · dsimp only [Database.Get]
    split_ifs <;> rfl
  · dsimp only [Database.Get]
    split_ifs <;> rfl
  · intro e
    rfl
  · rfl
  · rfl
  · intro e
    rfl
  · rfl
  · rfl
  · intro e
    unfold Database.Stat
    cases h : (db.client.ConfigGet property s).1.err <;> simp [h]
  · dsimp only [Database.Stat]
    split_ifs <;> rfl
  · dsimp only [Database.Stat]
    split_ifs <;> rfl

/-- C8 (as stated, refuted): on the in-memory backend, `Get` of a missing key
and `Get` of a key holding the empty value return different results: the
first is the nil slice, the second a non-nil slice of length 0. -/
theorem Get_absent_ne_Get_empty :
    ((memDB none).Get (GoBytes.mk [97]) []).1
      ≠ ((memDB none).Get (GoBytes.mk [97]) [([97], [])]).1 := by
  decide

/-- C8 (amended): `Get` of a missing key and `Get` of a key holding the empty
value both return a nil error and a slice of no bytes; the slice is nil for
the missing key and non-nil for the stored empty value. -/
theorem Get_absent_vs_empty (k : GoBytes) (s1 s2 : Store)
    (habsent : Store.get s1 (k.toGoString) = none)
    (hempty : Store.get s2 (k.toGoString) = some []) :
    ((memDB none).Get k s1).1 = (GoBytes.nil, none) ∧
    ((memDB none).Get k s2).1 = (GoBytes.mk [], none) ∧
    ((memDB none).Get k s1).1.1.bytes = ((memDB none).Get k s2).1.1.bytes ∧
    ((memDB none).Get k s1).1.2 = ((memDB none).Get k s2).1.2 ∧
    ((memDB none).Get k s1).1.1.isNil = true ∧
    ((memDB none).Get k s2).1.1.isNil = false := by
  simp [memDB, memClient, Database.Get, Database.key, habsent, hempty, GoString.toGoBytes,
    GoBytes.bytes, GoBytes.isNil]

theorem Get_absent_vs_empty_witness :
    Store.get [] ((GoBytes.mk [97]).toGoString) = none ∧
    Store.get [([97], [])] ((GoBytes.mk [97]).toGoString) = some [] ∧
    (((memDB none).Get (GoBytes.mk [97]) []).1 = (GoBytes.nil, none) ∧
    ((memDB none).Get (GoBytes.mk [97]) [([97], [])]).1 = (GoBytes.mk [], none) ∧
    ((memDB none).Get (GoBytes.mk [97]) []).1.1.bytes
      = ((memDB none).Get (GoBytes.mk [97]) [([97], [])]).1.1.bytes ∧
    ((memDB none).Get (GoBytes.mk [97]) []).1.2
      = ((memDB none).Get (GoBytes.mk [97]) [([97], [])]).1.2 ∧
    ((memDB none).Get (GoBytes.mk [97]) []).1.1.isNil = true ∧
    ((memDB none).Get (GoBytes.mk [97]) [([97], [])]).1.1.isNil = false) :=
  ⟨by decide, by decide,
    Get_absent_vs_empty (GoBytes.mk [97]) [] [([97], [])] (by decide) (by decide)⟩

/-- C9: `Compact` returns a nil error and leaves the backend state as it was,
for every client, every `start` and every `limit`; on a client that counts
its calls the count does not move, so no backend call is issued. -/
theorem Compact_noop (db : Database σ) (start limit : GoBytes) (s : σ) (n : Nat) :
    db.Compact start limit s = (none, s) ∧
    (Database.mk (counted db.client)).Compact start limit (s, n) = (none, (s, n)) :=
  ⟨rfl, rfl⟩

/-- C10: `Database.key` maps keys of different bytes to different strings,
and on the in-memory backend `Put(k, v)` and `Delete(k)` leave the results of
`Get(k2)` and `Has(k2)` unchanged for every `k2` whose bytes differ from
those of `k`. -/
theorem key_injective_and_frame (db : Database σ) (fault : GoError) (s : Store)
    (k k2 v : GoBytes) (hne : k.bytes ≠ k2.bytes) :
    db.key k ≠ db.key k2 ∧
    ((memDB fault).Get k2 ((memDB fault).Put k v s).2).1 = ((memDB fault).Get k2 s).1 ∧
    ((memDB fault).Has k2 ((memDB fault).Put k v s).2).1 = ((memDB fault).Has k2 s).1 ∧
    ((memDB fault).Get k2 ((memDB fault).Delete k s).2).1 = ((memDB fault).Get k2 s).1 ∧
    ((memDB fault).Has k2 ((memDB fault).Delete k s).2).1 = ((memDB fault).Has k2 s).1 := by
  refine ⟨hne, ?_⟩
  cases fault with
  | some e => simp [memDB, memClient, Database.Put, Database.Delete, Database.Get, Database.Has]
  | none =>
    have h1 := Store.get_set_other s k.bytes k2.bytes v.bytes hne
    have h2 := Store.get_del_other s k.bytes k2.bytes hne
    cases h : Store.get s k2.bytes <;>
      simp [memDB, memClient, Database.Put, Database.Delete, Database.Get, Database.Has,
        Database.key, GoBytes.toGoString, h1, h2, h, List.filter_cons]

theorem key_injective_and_frame_witness :
    (GoBytes.mk [255, 254]).bytes ≠ (GoBytes.mk []).bytes ∧
    (memDB none).key (GoBytes.mk [255, 254]) ≠ (memDB none).key (GoBytes.mk []) ∧
    ((memDB none).Get (GoBytes.mk [])
        ((memDB none).Put (GoBytes.mk [255, 254]) (GoBytes.mk [1]) [([], [4])]).2).1
      = ((memDB none).Get (GoBytes.mk []) [([], [4])]).1 :=
  ⟨by decide,
    (key_injective_and_frame (memDB none) none [([], [4])] (GoBytes.mk [255, 254])
      (GoBytes.mk []) (GoBytes.mk [1]) (by decide)).1,
    (key_injective_and_frame (memDB none) none [([], [4])] (GoBytes.mk [255, 254])
      (GoBytes.mk []) (GoBytes.mk [1]) (by decide)).2.1⟩

/-! ## Iterator, batch and snapshot -/

/-- C5: on the in-memory backend, the iterator returned by
`NewIterator(prefix, start)` yields, whatever the scan page size and the
fetch batch size, exactly the stored keys that have `prefix` as a byte-prefix
and are `>= start` byte-wise, in strictly ascending order with no key
repeated, each paired with its stored value; with ("a",1), ("ab",2), ("b",3)
stored, `NewIterator("a", "")` yields [("a",1), ("ab",2)] and
`NewIterator("a", "ab")` yields [("ab",2)]. -/
theorem NewIterator_yields (s : Store) (t : Tuning) (pre start : GoBytes) (fuel : Nat)
    (hbatch : 0 < t.fetchBatch) (hpages : s.length < t.maxPages) (hfuel : s.length < fuel) :
    ((memDB none).iterate t pre start fuel s).Pairwise (fun a b => a.1.bytes < b.1.bytes) ∧
    (∀ K : GoString, K ∈ ((memDB none).iterate t pre start fuel s).map (fun p => p.1.bytes) ↔
      (Store.get s K ≠ none ∧ pre.bytes <+: K ∧ start.bytes ≤ K)) ∧
    (∀ p ∈ (memDB none).iterate t pre start fuel s,
      Store.get s p.1.bytes = some p.2.bytes ∧ p.1.isNil = false ∧ p.2.isNil = false) ∧
    (memDB none).iterate ⟨1, 1, 4⟩ (GoBytes.mk [97]) (GoBytes.mk []) 4
        [([97], [1]), ([97, 98], [2]), ([98], [3])]
      = [(GoBytes.mk [97], GoBytes.mk [1]), (GoBytes.mk [97, 98], GoBytes.mk [2])] ∧
    (memDB none).iterate ⟨1, 1, 4⟩ (GoBytes.mk [97]) (GoBytes.mk [97, 98]) 4
        [([97], [1]), ([97, 98], [2]), ([98], [3])]
      = [(GoBytes.mk [97, 98], GoBytes.mk [2])] := by
  obtain ⟨keys, hout, hsorted, hmem⟩ := iterate_memDB s t pre start fuel hbatch hpages hfuel
  refine ⟨?_, ?_, ?_, by decide, by decide⟩
  · rw [hout, List.pairwise_map]
    refine hsorted.imp ?_
    intro a b hab
    exact lt_of_le_of_ne ((keyLE_iff_le a b).mp hab.1) hab.2
  · intro K
    rw [hout, List.map_map, ← keyLE_iff_le, ← hmem K]
    simp [GoBytes.bytes]
  · intro p hp
    rw [hout, List.mem_map] at hp
    obtain ⟨k, hk, rfl⟩ := hp
    have h := ((hmem k).mp hk).1
    cases hg : Store.get s k with
    | none => exact absurd hg h
    | some v => simp [GoBytes.bytes, hg, fetchedValue, GoBytes.isNil]

theorem NewIterator_yields_witness :
    0 < (Tuning.mk 2 1 5).fetchBatch ∧
    [([98], [3]), ([97, 98], [2]), ([97], [1]), ([97, 98], [7])].length
      < (Tuning.mk 2 1 5).maxPages ∧
    [([98], [3]), ([97, 98], [2]), ([97], [1]), ([97, 98], [7])].length < 5 ∧
    ((memDB none).iterate (Tuning.mk 2 1 5) (GoBytes.mk [97]) GoBytes.nil 5
        [([98], [3]), ([97, 98], [2]), ([97], [1]), ([97, 98], [7])]).Pairwise
      (fun a b => a.1.bytes < b.1.bytes) :=
  ⟨by decide, by decide, by decide,
    (NewIterator_yields [([98], [3]), ([97, 98], [2]), ([97], [1]), ([97, 98], [7])] ⟨2, 1, 5⟩
      (GoBytes.mk [97]) GoBytes.nil 5 (by decide) (by decide) (by decide)).1⟩

/-- C6: on the in-memory backend, flushing a batch obtained from `NewBatch`
or `NewBatchWithSize` to which a sequence of Puts and Deletes was appended
succeeds and leaves every key with the result of last-writer-wins over the
sequence in insertion order, which is also what applying the writes one
after the other with `Database.Put` and `Database.Delete` gives; after
Put("x",1), Delete("x"), Put("x",2) flushed, `Get("x")` returns 2. -/
theorem Batch_Write_lastWriterWins (s : Store) (size : Int) (ops : List WriteOp) (k : GoBytes) :
    ((ops.foldl Batch.append ((memDB none).NewBatchWithSize size)).Write s).1 = none ∧
    Store.get ((ops.foldl Batch.append ((memDB none).NewBatchWithSize size)).Write s).2 k.bytes
      = lastWriterWins ops k.bytes (Store.get s k.bytes) ∧
    ((ops.foldl Batch.append ((memDB none).NewBatch)).Write s).1 = none ∧
    Store.get ((ops.foldl Batch.append ((memDB none).NewBatch)).Write s).2 k.bytes
      = lastWriterWins ops k.bytes (Store.get s k.bytes) ∧
    ((ops.foldl Batch.append ((memDB none).NewBatchWithSize size)).Write s).2
      = ops.foldl (memDB none).write s ∧
    ((memDB none).Get (GoBytes.mk [120])
        (([WriteOp.put (GoBytes.mk [120]) (GoBytes.mk [1]), WriteOp.delete (GoBytes.mk [120]),
            WriteOp.put (GoBytes.mk [120]) (GoBytes.mk [2])].foldl Batch.append
          ((memDB none).NewBatch)).Write s).2).1 = (GoBytes.mk [2], none) := by
  have key : ∀ (sz : Int) (l : List WriteOp),
      ((l.foldl Batch.append (newBatch (memDB none) sz)).Write s)
        = (none, l.foldl (memDB none).write s) := by
    intro sz l
    have hdb : (l.foldl Batch.append (newBatch (memDB none) sz)).db = memDB none := by
      rw [Batch.foldl_append_db]
      rfl
    unfold Batch.Write
    rw [hdb]
    have hp : ∀ cmds : List PipeCmd, (memDB none).client.Pipeline cmds s
        = (cmds.map (fun _ => (none : GoError)), cmds.foldl Store.apply s) := fun _ => rfl
    simp only [hp, failedIndices_of_all_none, if_true]
    rw [Batch.apply_foldl_append l _ s rfl]
    rfl
  refine ⟨?_, ?_, ?_, ?_, ?_, ?_⟩
  · simp [Database.NewBatchWithSize, key]
  · simp [Database.NewBatchWithSize, key, Store.get_foldl_write]
  · simp [Database.NewBatch, key]
  · simp [Database.NewBatch, key, Store.get_foldl_write]
  · simp [Database.NewBatchWithSize, key]
  · have hget := Store.get_foldl_write
      [WriteOp.put (GoBytes.mk [120]) (GoBytes.mk [1]), WriteOp.delete (GoBytes.mk [120]),
        WriteOp.put (GoBytes.mk [120]) (GoBytes.mk [2])] s [120]
    have hlww : ∀ before, lastWriterWins
        [WriteOp.put (GoBytes.mk [120]) (GoBytes.mk [1]), WriteOp.delete (GoBytes.mk [120]),
          WriteOp.put (GoBytes.mk [120]) (GoBytes.mk [2])] [120] before = some [2] :=
      fun _ => rfl
    rw [hlww] at hget
    have hGet : ∀ s2 : Store, Store.get s2 [120] = some [2] →
        ((memDB none).Get (GoBytes.mk [120]) s2).1 = (GoBytes.mk [2], none) := by
      intro s2 h
      simp [memDB, memClient, Database.Get, Database.key, GoBytes.toGoString, GoBytes.bytes, h,
        GoString.toGoBytes]
    unfold Database.NewBatch
    rw [key]
    exact hGet _ hget

/-- C7: on the in-memory backend, `NewSnapshot()` succeeds without changing
the backend, and the snapshot's `Get(key)` returns, for every key stored at
construction time, the value stored then (and nothing for any other key),
without touching the backend and whatever Puts and Deletes are applied to
the backend afterwards. -/
theorem NewSnapshot_Get (s : Store) (t : Tuning) (key : GoBytes) (writes : List WriteOp)
    (hpages : s.length < t.maxPages) :
    ((memDB none).NewSnapshot t s).1.2 = none ∧
    ((memDB none).NewSnapshot t s).2 = s ∧
    (((memDB none).NewSnapshot t s).1.1.Get key s).1
      = (Store.get s key.bytes).map GoString.toGoBytes ∧
    ((memDB none).NewSnapshot t s).1.1.Get key (writes.foldl (memDB none).write s)
      = ((Store.get s key.bytes).map GoString.toGoBytes, writes.foldl (memDB none).write s) ∧
    (((memDB none).NewSnapshot t s).1.1.Has key (writes.foldl (memDB none).write s)).1
      = (Store.get s key.bytes).isSome := by
  obtain ⟨snap, hsnap, hget⟩ := newSnapshot_memDB s t hpages
  rw [hsnap]
  simp [Snapshot.Get, Snapshot.Has, GoBytes.toGoString, hget]

theorem NewSnapshot_Get_witness :
    [([97], [1]), ([98], [3])].length < (Tuning.mk 1 1 3).maxPages ∧
    (((memDB none).NewSnapshot (Tuning.mk 1 1 3) [([97], [1]), ([98], [3])]).1.1.Get (GoBytes.mk [97])
        ([WriteOp.put (GoBytes.mk [97]) (GoBytes.mk [5]), WriteOp.delete (GoBytes.mk [98])].foldl
          (memDB none).write [([97], [1]), ([98], [3])])).1
      = (Store.get [([97], [1]), ([98], [3])] (GoBytes.mk [97]).bytes).map GoString.toGoBytes :=
  ⟨by decide,
    congrArg Prod.fst (NewSnapshot_Get [([97], [1]), ([98], [3])] ⟨1, 1, 3⟩ (GoBytes.mk [97])
      [WriteOp.put (GoBytes.mk [97]) (GoBytes.mk [5]), WriteOp.delete (GoBytes.mk [98])]
      (by decide)).2.2.2.1⟩

end redisdb
